import Mathlib

/-!
# Verification of the mold template tree-rewriting pass (`tree.go`)

This file gives a shallow embedding of the single source file `tree.go` of the
`abiosoft/mold` repository and proves / refutes the frozen claims about it.

The Go code walks a parsed `text/template` tree depth-first and replaces
`render` / `partial` action nodes with template-invocation nodes, collecting
referenced template names along the way.  Machine representation notes:

* `parse.Node` (the relevant concrete kinds: `ActionNode`, `ListNode`,
  `WithNode`, `IfNode`, `RangeNode`, `TemplateNode`, `IdentifierNode`,
  `StringNode`, `FieldNode`, `DotNode`, anything else) becomes the inductive
  `Mold.Node`.  A `PipeNode` is its list of commands and a `CommandNode` is its
  list of argument nodes, so a pipe is embedded as `List (List Node)`.
  `WithNode`/`IfNode`/`RangeNode` carry their (untraversed) condition pipe and
  two possibly-nil `*ListNode` bodies, embedded as `Option (List Node)`.
* In-place mutation of `parent.Nodes[index]` is embedded by returning the
  updated node from each recursive call: the only slot the Go code can write
  while a child is being visited is that child's own slot.
* Go errors become `Mold.Err`: the `posErr` struct and `errors.New` values.
-/

namespace Mold

/-! ## Definitions: the embedding of `tree.go` and the spec-side functions -/

/-- Embedding of the `text/template/parse` node kinds that `tree.go`
inspects.  `action ps ln cmds` is an `ActionNode` with byte offset `ps`,
line `ln` and pipe `cmds`; `withN/ifN/rangeN` carry the branch condition
pipe (never traversed by the pass) and the two optional list bodies;
`template` is a `TemplateNode`; `identifier`, `stringN`, `fieldN`, `dot`
are the argument node kinds `getActionArgs` looks at; `other` stands for
every remaining node kind (text, comments, ...), which the pass treats as
a leaf. -/
inductive Node where
  | action (ps ln : Nat) (cmds : List (List Node))
  | list (nodes : List Node)
  | withN (pipe : List (List Node)) (body elseBody : Option (List Node))
  | ifN (pipe : List (List Node)) (body elseBody : Option (List Node))
  | rangeN (pipe : List (List Node)) (body elseBody : Option (List Node))
  | template (ps ln : Nat) (name : String) (cmds : List (List Node))
  | identifier (ident : String)
  | stringN (text : String)
  | fieldN (idents : List String)
  | dot
  | other

/-- Embedding of the Go error values produced by the pass: `posErr{pos,
message}` from `tree.go`, and the plain `errors.New` string error. -/
inductive Err where
  | posErr (pos : Nat) (message : String)
  | generic (message : String)

/-- Modelled from the spec: the constant naming the render function.  The
constants `renderFunc`/`partialFunc` live in a repository file outside
`src/`; the spec fixes the recognized directive names as `render` and
`partial`. -/
def renderFunc : String := "render"

/-- Modelled from the spec: the constant naming the partial function (the
Go constant is `partialFunc`; renamed here). See `renderFunc`. -/
def partFunc : String := "partial"

/-- `getActionArgs` from `tree.go`: from the argument list of a command,
position 0 yields the function name if it is an `IdentifierNode`,
position 1 the file/template name if it is a `StringNode`, position 2 the
field argument if it is a `FieldNode`; missing or wrong-kind positions
yield the zero value. -/
def getActionArgs (args : List Node) : String × String × Option Node :=
  let fn := match args[0]? with
    | some (Node.identifier i) => i
    | _ => ""
  let file := match args[1]? with
    | some (Node.stringN s) => s
    | _ => ""
  let fld := match args[2]? with
    | some (Node.fieldN f) => some (Node.fieldN f)
    | _ => none
  (fn, file, fld)

/-- `processActionNode` from `tree.go`, for the action node with offset
`ps`, line `ln` and pipe `cmds`.  `hp` is whether the `parent` argument is
non-nil.  On a rewrite the function mutates the parent slot; here the
replacement `TemplateNode` is returned as `Except.ok (some newNode)`,
`Except.ok none` meaning no rewrite. -/
def processActionNode (hp : Bool) (ps ln : Nat) (cmds : List (List Node))
    (rmode pmode : Bool) : Except Err (Option Node) :=
  if hp = false then
    Except.error (Err.generic "processActionNode error: parent node is nil")
  else
    let cmd := cmds.headD []
    let a := getActionArgs cmd
    if a.1 = partFunc ∧ pmode then
      if a.2.1 = "" then
        Except.error (Err.posErr ps "partial: path to partial file is not specified")
      else
        Except.ok (some (Node.template ps ln a.2.1 [[(a.2.2).getD Node.dot]]))
    else if a.1 = renderFunc ∧ rmode then
      Except.ok (some (Node.template ps ln (if a.2.1 = "" then "body" else a.2.1) [[Node.dot]]))
    else
      Except.ok none

mutual

/-- `processNode` from `tree.go`.  `hp` states whether the `parent`
argument is non-nil; the possibly-rewritten node (the content of the
parent slot after the call) is returned in the first component, then the
collected template names, then the error.  `parentErr` is the incoming
error of the enclosing accumulation, checked first exactly as in the
source. -/
def processNode (hp : Bool) (node : Node) (parentErr : Option Err)
    (rmode pmode : Bool) : Node × List String × Option Err :=
  match parentErr with
  | some e => (node, [], some e)
  | none =>
    match node with
    | Node.action ps ln cmds =>
      match cmds with
      | [] => (Node.action ps ln cmds, [], none)
      | cmd :: _ =>
        let a := getActionArgs cmd
        if a.1 = renderFunc ∨ a.1 = partFunc then
          match processActionNode hp ps ln cmds rmode pmode with
          | Except.error e => (Node.action ps ln cmds, [], some e)
          | Except.ok (some n') =>
            (n', if a.2.1 = "" then [] else [a.2.1], none)
          | Except.ok none =>
            (Node.action ps ln cmds, if a.2.1 = "" then [] else [a.2.1], none)
        else
          (Node.action ps ln cmds, if a.2.1 = "" then [] else [a.2.1], none)
    | Node.list ns =>
      let r := processChildren ns none rmode pmode
      (Node.list r.1, r.2.1, r.2.2)
    | Node.withN pipe b els =>
      let r1 := processOptBody b none rmode pmode
      let ts1 := if r1.2.2.isNone then r1.2.1 else []
      let r2 := processOptBody els r1.2.2 rmode pmode
      let err := if r2.2.2.isSome then r2.2.2 else r1.2.2
      let ts := if err.isNone then ts1 ++ r2.2.1 else ts1
      (Node.withN pipe r1.1 r2.1, ts, err)
    | Node.ifN pipe b els =>
      let r1 := processOptBody b none rmode pmode
      let ts1 := if r1.2.2.isNone then r1.2.1 else []
      let r2 := processOptBody els r1.2.2 rmode pmode
      let err := if r2.2.2.isSome then r2.2.2 else r1.2.2
      let ts := if err.isNone then ts1 ++ r2.2.1 else ts1
      (Node.ifN pipe r1.1 r2.1, ts, err)
    | Node.rangeN pipe b els =>
      let r1 := processOptBody b none rmode pmode
      let ts1 := if r1.2.2.isNone then r1.2.1 else []
      let r2 := processOptBody els r1.2.2 rmode pmode
      let err := if r2.2.2.isSome then r2.2.2 else r1.2.2
      let ts := if err.isNone then ts1 ++ r2.2.1 else ts1
      (Node.rangeN pipe r1.1 r2.1, ts, err)
    | Node.template ps ln nm cmds => (Node.template ps ln nm cmds, [], none)
    | Node.identifier s => (Node.identifier s, [], none)
    | Node.stringN s => (Node.stringN s, [], none)
    | Node.fieldN f => (Node.fieldN f, [], none)
    | Node.dot => (Node.dot, [], none)
    | Node.other => (Node.other, [], none)

/-- The recursive call `processNode(parent, index, w.List, err, ...)` of
`tree.go` on a possibly-nil `*parse.ListNode` body: a nil body matches the
`ListNode` type assertion but fails the `l != nil` guard, contributing
nothing; a non-nil body runs the child loop of the `ListNode` branch (the
body itself, being a `ListNode`, is never rewritten, so the enclosing
parent/index are not consulted).  The incoming accumulated error is
checked first, as in `processNode`. -/
def processOptBody (b : Option (List Node)) (parentErr : Option Err)
    (rmode pmode : Bool) : Option (List Node) × List String × Option Err :=
  match b with
  | none => (none, [], parentErr)
  | some ns =>
    match parentErr with
    | some e => (some ns, [], some e)
    | none =>
      let r := processChildren ns none rmode pmode
      (some r.1, r.2.1, r.2.2)

/-- The child loop of the `ListNode` branch of `processNode` in `tree.go`:
`for i, n := range l.Nodes { appendResult(processNode(l, i, n, err, ...)) }`
with `appendResult` updating the accumulated error and appending the
returned names only while the accumulated error is nil.  Every child is
visited with `l` as its (non-nil) parent. -/
def processChildren (ns : List Node) (errAcc : Option Err)
    (rmode pmode : Bool) : List Node × List String × Option Err :=
  match ns with
  | [] => ([], [], errAcc)
  | n :: rest =>
    let rn := processNode true n errAcc rmode pmode
    let err1 := if rn.2.2.isSome then rn.2.2 else errAcc
    let tsn := if err1.isNone then rn.2.1 else []
    let rr := processChildren rest err1 rmode pmode
    (rn.1 :: rr.1, tsn ++ rr.2.1, rr.2.2)

end

/-- UTF-8 byte width of a character, as Go's `range` over a string
advances its byte index. -/
def csize (c : Char) : Nat :=
  if c.val < 128 then 1 else if c.val < 2048 then 2 else
    if c.val < 65536 then 3 else 4

/-- The loop of `pos` in `tree.go`: scan the runes of the body with their
byte offsets, stopping at the first rune whose byte offset reaches `p`,
incrementing the line and resetting the column at each newline. -/
def posAux : List Char → Nat → Nat → Nat → Nat → Nat × Nat
  | [], _, _, line, col => (line, col)
  | c :: cs, i, p, line, col =>
    if i ≥ p then (line, col)
    else if c = '\n' then posAux cs (i + csize c) p (line + 1) 1
    else posAux cs (i + csize c) p line (col + 1)

/-- `pos` from `tree.go`: 1-based line and column of byte offset `p` in
`body`. -/
def pos (body : String) (p : Nat) : Nat × Nat :=
  posAux body.data 0 p 1 1

/-- The named template handed to the pass: `t.Name()` and the root of
`t.Tree` (`t.Tree.Root`, a `ListNode` for every tree the Go parser
produces; kept as a general `Node` so the defensive branches can be
exercised). -/
structure Template where
  name : String
  root : Node

/-- `processTree` from `tree.go`.  Runs the traversal from the root with a
nil parent; if the resulting error is a `posErr` it is formatted as
`"<name>:<line>:<col>: <message>"` using `pos` on the raw source text.
Any other (non-nil) error falls through the type assertion and the
function returns `ts, nil` — exactly as the source does.  The first
component is the traversal's resulting tree (the Go function mutates the
tree in place). -/
def processTree (t : Template) (raw : String) (rmode pmode : Bool) :
    Node × List String × Option String :=
  let r := processNode false t.root none rmode pmode
  match r.2.2 with
  | some (Err.posErr p m) =>
    let lc := pos raw p
    (r.1, r.2.1, some (t.name ++ ":" ++ toString lc.1 ++ ":" ++ toString lc.2 ++ ": " ++ m))
  | _ => (r.1, r.2.1, none)

mutual

/-- Specification-side reference list (from the spec's words): the
document-order list of the literal name arguments of name-bearing action
nodes — the second argument of the first pipeline command when it is a
non-empty string literal.  Branch bodies are visited "then" before
"else"; branch condition pipes and all other node kinds contribute
nothing. -/
def refNamesSpec : Node → List String
  | Node.action _ _ [] => []
  | Node.action _ _ (cmd :: _) =>
    if (getActionArgs cmd).2.1 = "" then [] else [(getActionArgs cmd).2.1]
  | Node.list ns => refNamesList ns
  | Node.withN _ b els => refNamesOpt b ++ refNamesOpt els
  | Node.ifN _ b els => refNamesOpt b ++ refNamesOpt els
  | Node.rangeN _ b els => refNamesOpt b ++ refNamesOpt els
  | _ => []

/-- `refNamesSpec` over the children of a sequence node, in order. -/
def refNamesList : List Node → List String
  | [] => []
  | n :: ns => refNamesSpec n ++ refNamesList ns

/-- `refNamesSpec` over an optional body. -/
def refNamesOpt : Option (List Node) → List String
  | none => []
  | some ns => refNamesList ns

end

mutual

/-- Decidable predicate: the tree contains no action node whose first
pipeline command invokes `render` or `partial` (anywhere the traversal
looks). -/
def noRP : Node → Bool
  | Node.action _ _ [] => true
  | Node.action _ _ (cmd :: _) =>
    if (getActionArgs cmd).1 = renderFunc ∨ (getActionArgs cmd).1 = partFunc then false
    else true
  | Node.list ns => noRPList ns
  | Node.withN _ b els => noRPOpt b && noRPOpt els
  | Node.ifN _ b els => noRPOpt b && noRPOpt els
  | Node.rangeN _ b els => noRPOpt b && noRPOpt els
  | _ => true

/-- `noRP` over the children of a sequence node. -/
def noRPList : List Node → Bool
  | [] => true
  | n :: ns => noRP n && noRPList ns

/-- `noRP` over an optional body. -/
def noRPOpt : Option (List Node) → Bool
  | none => true
  | some ns => noRPList ns

end

/-- Lift a predicate on child lists to an optional body (trivially true
for an absent body). -/
def OptP (Q : List Node → Prop) : Option (List Node) → Prop
  | none => True
  | some ns => Q ns

/-- The shared shape of the branch-node cases of `processNode` (with/if/
range): process the "then" body, then the "else" body threaded with the
accumulated error, combining names and error exactly as the two
`appendResult` calls do.  Returns the two updated bodies, the names and
the error. -/
def branchResults (b els : Option (List Node)) (rmode pmode : Bool) :
    (Option (List Node) × Option (List Node)) × List String × Option Err :=
  (((processOptBody b none rmode pmode).1,
    (processOptBody els (processOptBody b none rmode pmode).2.2 rmode pmode).1),
   (if (if (processOptBody els (processOptBody b none rmode pmode).2.2 rmode pmode).2.2.isSome
        then (processOptBody els (processOptBody b none rmode pmode).2.2 rmode pmode).2.2
        else (processOptBody b none rmode pmode).2.2).isNone
    then (if (processOptBody b none rmode pmode).2.2.isNone
          then (processOptBody b none rmode pmode).2.1 else []) ++
         (processOptBody els (processOptBody b none rmode pmode).2.2 rmode pmode).2.1
    else (if (processOptBody b none rmode pmode).2.2.isNone
          then (processOptBody b none rmode pmode).2.1 else [])),
   (if (processOptBody els (processOptBody b none rmode pmode).2.2 rmode pmode).2.2.isSome
    then (processOptBody els (processOptBody b none rmode pmode).2.2 rmode pmode).2.2
    else (processOptBody b none rmode pmode).2.2))

/-- The characters of the source text that lie strictly before byte
offset `off` (starting the byte count at `i`): the runes of the Go loop
that are processed before the break. -/
def charsBefore : List Char → Nat → Nat → List Char
  | [], _, _ => []
  | c :: cs, i, off => if i ≥ off then [] else c :: charsBefore cs (i + csize c) off

/-- Specification-side line/column (from the claim's words): scan the raw
source text up to (but not including) the byte offset; the 1-based line
is one more than the number of newlines scanned, the 1-based column
restarts at 1 after each newline and otherwise increments. -/
def lineColSpec (raw : String) (off : Nat) : Nat × Nat :=
  ((charsBefore raw.data 0 off).count '\n' + 1,
   (charsBefore raw.data 0 off).foldl (fun acc c => if c = '\n' then 1 else acc + 1) 1)

def exTree2 : Node :=
  Node.list [
    Node.action 2 1 [[Node.identifier "partial", Node.stringN "a.html"]],
    Node.action 22 1 [[Node.identifier "render"]],
    Node.action 32 1 [[Node.identifier "render", Node.stringN "foot", Node.fieldN ["Foo"]]]]

def c3Tree : Node := Node.list [Node.template 2 1 "x" [[Node.dot]]]

def c3WitnessTree : Node :=
  Node.list [Node.action 2 1 [[Node.identifier "tmpl", Node.stringN "x.html"]],
             Node.template 20 1 "y" [[Node.dot]]]

def c7BadAction : Node := Node.action 2 1 [[Node.identifier "partial"]]

def c7GoodAction : Node :=
  Node.action 22 1 [[Node.identifier "partial", Node.stringN "b.html"]]

def c9Tree : Node :=
  Node.list [Node.action 2 1 [[Node.identifier "tmpl", Node.stringN "x.html"]],
             Node.ifN [[Node.identifier "cond"]]
               (some [Node.action 30 2 [[Node.identifier "other", Node.stringN "y.html"]]])
               none]

/-! ## Theorems -/

theorem processNode_some (hp : Bool) (n : Node) (e : Err) (rmode pmode : Bool) :
    processNode hp n (some e) rmode pmode = (n, [], some e) := by
  simp [processNode]

theorem processChildren_some (ns : List Node) (e : Err) (rmode pmode : Bool) :
    processChildren ns (some e) rmode pmode = (ns, [], some e) := by
  induction ns with
  | nil => simp [processChildren]
  | cons n rest ih => simp [processChildren, processNode_some, ih]

theorem processChildren_append (a b : List Node) (err : Option Err) (rmode pmode : Bool) :
    processChildren (a ++ b) err rmode pmode =
      ((processChildren a err rmode pmode).1 ++
         (processChildren b (processChildren a err rmode pmode).2.2 rmode pmode).1,
       (processChildren a err rmode pmode).2.1 ++
         (processChildren b (processChildren a err rmode pmode).2.2 rmode pmode).2.1,
       (processChildren b (processChildren a err rmode pmode).2.2 rmode pmode).2.2) := by
  induction a generalizing err with
  | nil => simp [processChildren]
  | cons n rest ih =>
    simp only [List.cons_append, processChildren, List.append_eq, ih, List.append_assoc]

/-- Mutual structural-induction principle for `Node` together with lists
of nodes, tailored to the traversal (action pipes are not recursed
into). -/
theorem node_mutual_ind (P : Node → Prop) (Q : List Node → Prop)
    (ha : ∀ ps ln cmds, P (Node.action ps ln cmds))
    (hl : ∀ ns, Q ns → P (Node.list ns))
    (hw : ∀ pipe b els, OptP Q b → OptP Q els → P (Node.withN pipe b els))
    (hi : ∀ pipe b els, OptP Q b → OptP Q els → P (Node.ifN pipe b els))
    (hr : ∀ pipe b els, OptP Q b → OptP Q els → P (Node.rangeN pipe b els))
    (ht : ∀ ps ln nm cmds, P (Node.template ps ln nm cmds))
    (hid : ∀ s, P (Node.identifier s))
    (hs : ∀ s, P (Node.stringN s))
    (hf : ∀ f, P (Node.fieldN f))
    (hd : P Node.dot)
    (ho : P Node.other)
    (hnil : Q [])
    (hcons : ∀ n ns, P n → Q ns → Q (n :: ns)) :
    (∀ t, P t) ∧ (∀ ns, Q ns) := by
  have key : ∀ k : Nat, (∀ t : Node, sizeOf t ≤ k → P t) ∧
      (∀ ns : List Node, sizeOf ns ≤ k → Q ns) := by
    intro k
    induction k with
    | zero =>
      constructor
      · intro t h
        exfalso
        cases t <;> simp at h <;> omega
      · intro ns h
        exfalso
        cases ns <;> simp at h <;> omega
    | succ k ih =>
      obtain ⟨ihP, ihQ⟩ := ih
      constructor
      · intro t hsz
        cases t with
        | action ps ln cmds => exact ha ps ln cmds
        | list ns =>
          apply hl
          apply ihQ
          simp at hsz
          omega
        | withN pipe b els =>
          apply hw
          · cases b with
            | none => exact trivial
            | some ns =>
              show Q ns
              apply ihQ
              simp at hsz
              omega
          · cases els with
            | none => exact trivial
            | some ns =>
              show Q ns
              apply ihQ
              simp at hsz
              omega
        | ifN pipe b els =>
          apply hi
          · cases b with
            | none => exact trivial
            | some ns =>
              show Q ns
              apply ihQ
              simp at hsz
              omega
          · cases els with
            | none => exact trivial
            | some ns =>
              show Q ns
              apply ihQ
              simp at hsz
              omega
        | rangeN pipe b els =>
          apply hr
          · cases b with
            | none => exact trivial
            | some ns =>
              show Q ns
              apply ihQ
              simp at hsz
              omega
          · cases els with
            | none => exact trivial
            | some ns =>
              show Q ns
              apply ihQ
              simp at hsz
              omega
        | template ps ln nm cmds => exact ht ps ln nm cmds
        | identifier s => exact hid s
        | stringN s => exact hs s
        | fieldN f => exact hf f
        | dot => exact hd
        | other => exact ho
      · intro ns hsz
        cases ns with
        | nil => exact hnil
        | cons n rest =>
          apply hcons
          · apply ihP
            simp at hsz
            omega
          · apply ihQ
            simp at hsz
            omega
  constructor
  · intro t
    exact (key (sizeOf t)).1 t le_rfl
  · intro ns
    exact (key (sizeOf ns)).2 ns le_rfl

theorem pn_action_nil (hp : Bool) (ps ln : Nat) (rmode pmode : Bool) :
    processNode hp (Node.action ps ln []) none rmode pmode =
      (Node.action ps ln [], [], none) := by
  simp [processNode]

theorem pn_action_err {hp : Bool} {ps ln : Nat} {cmd : List Node}
    {tail : List (List Node)} {rmode pmode : Bool} {e : Err}
    (hfn : (getActionArgs cmd).1 = renderFunc ∨ (getActionArgs cmd).1 = partFunc)
    (hact : processActionNode hp ps ln (cmd :: tail) rmode pmode = Except.error e) :
    processNode hp (Node.action ps ln (cmd :: tail)) none rmode pmode =
      (Node.action ps ln (cmd :: tail), [], some e) := by
  simp [processNode, hfn, hact]

theorem pn_action_rw {hp : Bool} {ps ln : Nat} {cmd : List Node}
    {tail : List (List Node)} {rmode pmode : Bool} {n' : Node}
    (hfn : (getActionArgs cmd).1 = renderFunc ∨ (getActionArgs cmd).1 = partFunc)
    (hact : processActionNode hp ps ln (cmd :: tail) rmode pmode = Except.ok (some n')) :
    processNode hp (Node.action ps ln (cmd :: tail)) none rmode pmode =
      (n', if (getActionArgs cmd).2.1 = "" then [] else [(getActionArgs cmd).2.1], none) := by
  simp [processNode, hfn, hact]

theorem pn_action_norw {hp : Bool} {ps ln : Nat} {cmd : List Node}
    {tail : List (List Node)} {rmode pmode : Bool}
    (hfn : (getActionArgs cmd).1 = renderFunc ∨ (getActionArgs cmd).1 = partFunc)
    (hact : processActionNode hp ps ln (cmd :: tail) rmode pmode = Except.ok none) :
    processNode hp (Node.action ps ln (cmd :: tail)) none rmode pmode =
      (Node.action ps ln (cmd :: tail),
        if (getActionArgs cmd).2.1 = "" then [] else [(getActionArgs cmd).2.1], none) := by
  simp [processNode, hfn, hact]

theorem pn_action_nomatch {hp : Bool} {ps ln : Nat} {cmd : List Node}
    {tail : List (List Node)} {rmode pmode : Bool}
    (hfn : ¬((getActionArgs cmd).1 = renderFunc ∨ (getActionArgs cmd).1 = partFunc)) :
    processNode hp (Node.action ps ln (cmd :: tail)) none rmode pmode =
      (Node.action ps ln (cmd :: tail),
        if (getActionArgs cmd).2.1 = "" then [] else [(getActionArgs cmd).2.1], none) := by
  simp [processNode, hfn]

theorem pn_list (hp : Bool) (ns : List Node) (rmode pmode : Bool) :
    processNode hp (Node.list ns) none rmode pmode =
      (Node.list (processChildren ns none rmode pmode).1,
       (processChildren ns none rmode pmode).2.1,
       (processChildren ns none rmode pmode).2.2) := by
  simp [processNode]

theorem pn_withN (hp : Bool) (pipe : List (List Node)) (b els : Option (List Node))
    (rmode pmode : Bool) :
    processNode hp (Node.withN pipe b els) none rmode pmode =
      (Node.withN pipe (branchResults b els rmode pmode).1.1 (branchResults b els rmode pmode).1.2,
       (branchResults b els rmode pmode).2.1,
       (branchResults b els rmode pmode).2.2) := by
  simp [processNode, branchResults]

theorem pn_ifN (hp : Bool) (pipe : List (List Node)) (b els : Option (List Node))
    (rmode pmode : Bool) :
    processNode hp (Node.ifN pipe b els) none rmode pmode =
      (Node.ifN pipe (branchResults b els rmode pmode).1.1 (branchResults b els rmode pmode).1.2,
       (branchResults b els rmode pmode).2.1,
       (branchResults b els rmode pmode).2.2) := by
  simp [processNode, branchResults]

theorem pn_rangeN (hp : Bool) (pipe : List (List Node)) (b els : Option (List Node))
    (rmode pmode : Bool) :
    processNode hp (Node.rangeN pipe b els) none rmode pmode =
      (Node.rangeN pipe (branchResults b els rmode pmode).1.1 (branchResults b els rmode pmode).1.2,
       (branchResults b els rmode pmode).2.1,
       (branchResults b els rmode pmode).2.2) := by
  simp [processNode, branchResults]

theorem pob_none (parentErr : Option Err) (rmode pmode : Bool) :
    processOptBody none parentErr rmode pmode = (none, [], parentErr) := by
  simp [processOptBody]

theorem pob_some_err (ns : List Node) (e : Err) (rmode pmode : Bool) :
    processOptBody (some ns) (some e) rmode pmode = (some ns, [], some e) := by
  simp [processOptBody]

theorem pob_some (ns : List Node) (rmode pmode : Bool) :
    processOptBody (some ns) none rmode pmode =
      (some (processChildren ns none rmode pmode).1,
       (processChildren ns none rmode pmode).2.1,
       (processChildren ns none rmode pmode).2.2) := by
  simp [processOptBody]

theorem pc_nil (errAcc : Option Err) (rmode pmode : Bool) :
    processChildren [] errAcc rmode pmode = ([], [], errAcc) := by
  simp [processChildren]

theorem pc_cons_none (n : Node) (rest : List Node) (rmode pmode : Bool) :
    processChildren (n :: rest) none rmode pmode =
      ((processNode true n none rmode pmode).1 ::
         (processChildren rest (processNode true n none rmode pmode).2.2 rmode pmode).1,
       (if (processNode true n none rmode pmode).2.2.isNone
        then (processNode true n none rmode pmode).2.1 else []) ++
         (processChildren rest (processNode true n none rmode pmode).2.2 rmode pmode).2.1,
       (processChildren rest (processNode true n none rmode pmode).2.2 rmode pmode).2.2) := by
  simp only [processChildren]
  cases h : (processNode true n none rmode pmode).2.2 <;> simp [h]

theorem pn_leaf_template (hp : Bool) (ps ln : Nat) (nm : String)
    (cmds : List (List Node)) (rmode pmode : Bool) :
    processNode hp (Node.template ps ln nm cmds) none rmode pmode =
      (Node.template ps ln nm cmds, [], none) := by
  simp [processNode]

/-- Splitting `branchResults` when its combined error is `none`: both
bodies ran error-free (the else body with a `none` incoming error) and
the names concatenate. -/
theorem pob_carry (x : Option (List Node)) (e : Err) (rmode pmode : Bool) :
    processOptBody x (some e) rmode pmode = (x, [], some e) := by
  cases x <;> simp [processOptBody]

theorem branchResults_none (b els : Option (List Node)) (rmode pmode : Bool)
    (h : (branchResults b els rmode pmode).2.2 = none) :
    (processOptBody b none rmode pmode).2.2 = none ∧
    (processOptBody els none rmode pmode).2.2 = none ∧
    branchResults b els rmode pmode =
      (((processOptBody b none rmode pmode).1, (processOptBody els none rmode pmode).1),
       (processOptBody b none rmode pmode).2.1 ++ (processOptBody els none rmode pmode).2.1,
       none) := by
  unfold branchResults at h ⊢
  cases h1 : (processOptBody b none rmode pmode).2.2 with
  | some e =>
    rw [h1, pob_carry] at h
    simp at h
  | none =>
    rw [h1] at h
    cases h2 : (processOptBody els none rmode pmode).2.2 with
    | some e2 => rw [h2] at h; simp at h
    | none => simp

/-- On any error-free run, the collected names are exactly the
spec-side reference list, for nodes and for child lists. -/
theorem names_eq :
    (∀ t : Node, ∀ hp rmode pmode : Bool,
       (processNode hp t none rmode pmode).2.2 = none →
       (processNode hp t none rmode pmode).2.1 = refNamesSpec t) ∧
    (∀ ns : List Node, ∀ rmode pmode : Bool,
       (processChildren ns none rmode pmode).2.2 = none →
       (processChildren ns none rmode pmode).2.1 = refNamesList ns) := by
  refine node_mutual_ind
    (fun t => ∀ hp rmode pmode : Bool,
      (processNode hp t none rmode pmode).2.2 = none →
      (processNode hp t none rmode pmode).2.1 = refNamesSpec t)
    (fun ns => ∀ rmode pmode : Bool,
      (processChildren ns none rmode pmode).2.2 = none →
      (processChildren ns none rmode pmode).2.1 = refNamesList ns)
    ?_ ?_ ?_ ?_ ?_ ?_ ?_ ?_ ?_ ?_ ?_ ?_ ?_
  · intro ps ln cmds hp rmode pmode h
    cases cmds with
    | nil => rw [pn_action_nil]; simp [refNamesSpec]
    | cons cmd tail =>
      by_cases hfn : (getActionArgs cmd).1 = renderFunc ∨ (getActionArgs cmd).1 = partFunc
      · cases hact : processActionNode hp ps ln (cmd :: tail) rmode pmode with
        | error e => rw [pn_action_err hfn hact] at h; simp at h
        | ok o =>
          cases o with
          | some n' => rw [pn_action_rw hfn hact]; simp [refNamesSpec]
          | none => rw [pn_action_norw hfn hact]; simp [refNamesSpec]
      · rw [pn_action_nomatch hfn]
        simp [refNamesSpec]
  · intro ns hQ hp rmode pmode h
    rw [pn_list] at h ⊢
    have h1 : (processChildren ns none rmode pmode).2.2 = none := by simpa using h
    simpa [refNamesSpec] using hQ rmode pmode h1
  · intro pipe b els hb hels hp rmode pmode h
    rw [pn_withN] at h ⊢
    have h1 : (branchResults b els rmode pmode).2.2 = none := by simpa using h
    obtain ⟨hb1, he1, heq⟩ := branchResults_none b els rmode pmode h1
    have key : ∀ (x : Option (List Node)),
        OptP (fun ns => ∀ rmode pmode : Bool,
          (processChildren ns none rmode pmode).2.2 = none →
          (processChildren ns none rmode pmode).2.1 = refNamesList ns) x →
        (processOptBody x none rmode pmode).2.2 = none →
        (processOptBody x none rmode pmode).2.1 = refNamesOpt x := by
      intro x hx hxe
      cases x with
      | none => simp [pob_none, refNamesOpt]
      | some bs =>
        rw [pob_some] at hxe ⊢
        simpa [refNamesOpt] using hx rmode pmode (by simpa using hxe)
    rw [heq]
    simp [refNamesSpec, key b hb hb1, key els hels he1]
  · intro pipe b els hb hels hp rmode pmode h
    rw [pn_ifN] at h ⊢
    have h1 : (branchResults b els rmode pmode).2.2 = none := by simpa using h
    obtain ⟨hb1, he1, heq⟩ := branchResults_none b els rmode pmode h1
    have key : ∀ (x : Option (List Node)),
        OptP (fun ns => ∀ rmode pmode : Bool,
          (processChildren ns none rmode pmode).2.2 = none →
          (processChildren ns none rmode pmode).2.1 = refNamesList ns) x →
        (processOptBody x none rmode pmode).2.2 = none →
        (processOptBody x none rmode pmode).2.1 = refNamesOpt x := by
      intro x hx hxe
      cases x with
      | none => simp [pob_none, refNamesOpt]
      | some bs =>
        rw [pob_some] at hxe ⊢
        simpa [refNamesOpt] using hx rmode pmode (by simpa using hxe)
    rw [heq]
    simp [refNamesSpec, key b hb hb1, key els hels he1]
  · intro pipe b els hb hels hp rmode pmode h
    rw [pn_rangeN] at h ⊢
    have h1 : (branchResults b els rmode pmode).2.2 = none := by simpa using h
    obtain ⟨hb1, he1, heq⟩ := branchResults_none b els rmode pmode h1
    have key : ∀ (x : Option (List Node)),
        OptP (fun ns => ∀ rmode pmode : Bool,
          (processChildren ns none rmode pmode).2.2 = none →
          (processChildren ns none rmode pmode).2.1 = refNamesList ns) x →
        (processOptBody x none rmode pmode).2.2 = none →
        (processOptBody x none rmode pmode).2.1 = refNamesOpt x := by
      intro x hx hxe
      cases x with
      | none => simp [pob_none, refNamesOpt]
      | some bs =>
        rw [pob_some] at hxe ⊢
        simpa [refNamesOpt] using hx rmode pmode (by simpa using hxe)
    rw [heq]
    simp [refNamesSpec, key b hb hb1, key els hels he1]
  · intro ps ln nm cmds hp rmode pmode h
    simp [processNode, refNamesSpec]
  · intro s hp rmode pmode h
    simp [processNode, refNamesSpec]
  · intro s hp rmode pmode h
    simp [processNode, refNamesSpec]
  · intro f hp rmode pmode h
    simp [processNode, refNamesSpec]
  · intro hp rmode pmode h
    simp [processNode, refNamesSpec]
  · intro hp rmode pmode h
    simp [processNode, refNamesSpec]
  · intro rmode pmode h
    simp [pc_nil, refNamesList]
  · intro n rest hP hQ rmode pmode h
    rw [pc_cons_none] at h ⊢
    cases hn : (processNode true n none rmode pmode).2.2 with
    | some e =>
      rw [hn, processChildren_some] at h
      simp at h
    | none =>
      rw [hn] at h
      simp [refNamesList, hP true rmode pmode hn, hQ rmode pmode h]

/-- On a tree without render/partial actions the pass is the identity on
the tree, collects exactly the spec-side reference list and returns no
error — for nodes and for child lists. -/
theorem noRP_id :
    (∀ t : Node, ∀ hp rmode pmode : Bool, noRP t = true →
       processNode hp t none rmode pmode = (t, refNamesSpec t, none)) ∧
    (∀ ns : List Node, ∀ rmode pmode : Bool, noRPList ns = true →
       processChildren ns none rmode pmode = (ns, refNamesList ns, none)) := by
  refine node_mutual_ind
    (fun t => ∀ hp rmode pmode : Bool, noRP t = true →
      processNode hp t none rmode pmode = (t, refNamesSpec t, none))
    (fun ns => ∀ rmode pmode : Bool, noRPList ns = true →
      processChildren ns none rmode pmode = (ns, refNamesList ns, none))
    ?_ ?_ ?_ ?_ ?_ ?_ ?_ ?_ ?_ ?_ ?_ ?_ ?_
  · intro ps ln cmds hp rmode pmode h
    cases cmds with
    | nil => rw [pn_action_nil]; simp [refNamesSpec]
    | cons cmd tail =>
      have hfn : ¬((getActionArgs cmd).1 = renderFunc ∨ (getActionArgs cmd).1 = partFunc) := by
        simp [noRP] at h
        tauto
      rw [pn_action_nomatch hfn]
      simp [refNamesSpec]
  · intro ns hQ hp rmode pmode h
    simp [noRP] at h
    rw [pn_list, hQ rmode pmode h]
    simp [refNamesSpec]
  · intro pipe b els hb hels hp rmode pmode h
    simp [noRP] at h
    have key : ∀ (x : Option (List Node)),
        OptP (fun ns => ∀ rmode pmode : Bool, noRPList ns = true →
          processChildren ns none rmode pmode = (ns, refNamesList ns, none)) x →
        noRPOpt x = true →
        processOptBody x none rmode pmode = (x, refNamesOpt x, none) := by
      intro x hx hxn
      cases x with
      | none => simp [pob_none, refNamesOpt]
      | some bs =>
        simp [noRPOpt] at hxn
        rw [pob_some, hx rmode pmode hxn]
        simp [refNamesOpt]
    have hbr : branchResults b els rmode pmode =
        ((b, els), refNamesOpt b ++ refNamesOpt els, none) := by
      unfold branchResults
      rw [key b hb h.1]
      rw [key els hels h.2]
      simp
    rw [pn_withN, hbr]
    simp [refNamesSpec]
  · intro pipe b els hb hels hp rmode pmode h
    simp [noRP] at h
    have key : ∀ (x : Option (List Node)),
        OptP (fun ns => ∀ rmode pmode : Bool, noRPList ns = true →
          processChildren ns none rmode pmode = (ns, refNamesList ns, none)) x →
        noRPOpt x = true →
        processOptBody x none rmode pmode = (x, refNamesOpt x, none) := by
      intro x hx hxn
      cases x with
      | none => simp [pob_none, refNamesOpt]
      | some bs =>
        simp [noRPOpt] at hxn
        rw [pob_some, hx rmode pmode hxn]
        simp [refNamesOpt]
    have hbr : branchResults b els rmode pmode =
        ((b, els), refNamesOpt b ++ refNamesOpt els, none) := by
      unfold branchResults
      rw [key b hb h.1]
      rw [key els hels h.2]
      simp
    rw [pn_ifN, hbr]
    simp [refNamesSpec]
  · intro pipe b els hb hels hp rmode pmode h
    simp [noRP] at h
    have key : ∀ (x : Option (List Node)),
        OptP (fun ns => ∀ rmode pmode : Bool, noRPList ns = true →
          processChildren ns none rmode pmode = (ns, refNamesList ns, none)) x →
        noRPOpt x = true →
        processOptBody x none rmode pmode = (x, refNamesOpt x, none) := by
      intro x hx hxn
      cases x with
      | none => simp [pob_none, refNamesOpt]
      | some bs =>
        simp [noRPOpt] at hxn
        rw [pob_some, hx rmode pmode hxn]
        simp [refNamesOpt]
    have hbr : branchResults b els rmode pmode =
        ((b, els), refNamesOpt b ++ refNamesOpt els, none) := by
      unfold branchResults
      rw [key b hb h.1]
      rw [key els hels h.2]
      simp
    rw [pn_rangeN, hbr]
    simp [refNamesSpec]
  · intro ps ln nm cmds hp rmode pmode h
    simp [processNode, refNamesSpec]
  · intro s hp rmode pmode h
    simp [processNode, refNamesSpec]
  · intro s hp rmode pmode h
    simp [processNode, refNamesSpec]
  · intro f hp rmode pmode h
    simp [processNode, refNamesSpec]
  · intro hp rmode pmode h
    simp [processNode, refNamesSpec]
  · intro hp rmode pmode h
    simp [processNode, refNamesSpec]
  · intro rmode pmode h
    simp [pc_nil, refNamesList]
  · intro n rest hP hQ rmode pmode h
    simp [noRPList] at h
    rw [pc_cons_none, hP true rmode pmode h.1]
    simp [refNamesList, hQ rmode pmode h.2]

theorem posAux_eq (cs : List Char) :
    ∀ (i off line col : Nat),
    posAux cs i off line col =
      (line + (charsBefore cs i off).count '\n',
       (charsBefore cs i off).foldl (fun acc c => if c = '\n' then 1 else acc + 1) col) := by
  induction cs with
  | nil => intro i off line col; simp [posAux, charsBefore]
  | cons c cs ih =>
    intro i off line col
    by_cases hio : i ≥ off
    · simp [posAux, charsBefore, hio]
    · by_cases hc : c = '\n'
      · simp [posAux, charsBefore, hio, hc, ih, List.count_cons]
        omega
      · simp [posAux, charsBefore, hio, hc, ih, List.count_cons]

/-- `pos` computes exactly the spec-side line/column. -/
theorem pos_eq_lineColSpec (raw : String) (off : Nat) :
    pos raw off = lineColSpec raw off := by
  unfold pos lineColSpec
  rw [posAux_eq]
  simp [Nat.add_comm]

/-- C1: the traversal does return the internal nil-parent error, but
`processTree` formats only `posErr` errors and then falls through to
`return ts, nil`: the non-positioned error is discarded, not passed
through. -/
theorem c1_internalErrorDiscarded :
    (processNode false (Node.action 2 1 [[Node.identifier "render"]]) none true true).2.2 =
      some (Err.generic "processActionNode error: parent node is nil") ∧
    (processTree ⟨"index.html", Node.action 2 1 [[Node.identifier "render"]]⟩
        "\x7b\x7brender\x7d\x7d" true true).2.2 = none := by
  constructor <;>
    simp +decide [processTree, processNode, processActionNode, getActionArgs,
      renderFunc, partFunc]

/-- C2 counterexample: on the tree of
`{{partial "a.html"}}{{render}}{{render "foot" .Foo}}` with both modes
enabled the Reference List is not `["a.html"]` (it is
`["a.html", "foot"]`). -/
theorem c2_counterexample :
    ¬ ((processTree ⟨"index.html", exTree2⟩
         "\x7b\x7bpartial \"a.html\"\x7d\x7d\x7b\x7brender\x7d\x7d\x7b\x7brender \"foot\" .Foo\x7d\x7d" true true).2.1 =
       ["a.html"]) := by
  have h : (processTree ⟨"index.html", exTree2⟩
      "\x7b\x7bpartial \"a.html\"\x7d\x7d\x7b\x7brender\x7d\x7d\x7b\x7brender \"foot\" .Foo\x7d\x7d" true true).2.1 =
      ["a.html", "foot"] := by
    simp +decide [processTree, processNode, processChildren, processActionNode,
      getActionArgs, renderFunc, partFunc, exTree2]
  rw [h]
  decide

/-- C2 amended: the pass on that tree produces three rewritten
template-invocation nodes (`"a.html"`, `"body"` and `"foot"`, each bound
to the full context) and the Reference List `["a.html", "foot"]`. -/
theorem c2_amended :
    processTree ⟨"index.html", exTree2⟩
        "\x7b\x7bpartial \"a.html\"\x7d\x7d\x7b\x7brender\x7d\x7d\x7b\x7brender \"foot\" .Foo\x7d\x7d" true true =
      (Node.list [
        Node.template 2 1 "a.html" [[Node.dot]],
        Node.template 22 1 "body" [[Node.dot]],
        Node.template 32 1 "foot" [[Node.dot]]],
       ["a.html", "foot"], none) := by
  simp +decide [processTree, processNode, processChildren, processActionNode,
    getActionArgs, renderFunc, partFunc, exTree2]

/-- C3 counterexample: a literal template-invocation node encountered
directly during traversal contributes nothing — the pass succeeds on a
tree containing the invocation named `"x"` yet `"x"` is not in the
returned Reference List. -/
theorem c3_counterexample :
    (processTree ⟨"t.html", c3Tree⟩ "\x7b\x7btemplate \"x\"\x7d\x7d" true true).2.2 = none ∧
    ¬ ("x" ∈ (processTree ⟨"t.html", c3Tree⟩ "\x7b\x7btemplate \"x\"\x7d\x7d" true true).2.1) := by
  constructor <;>
    simp +decide [processTree, processNode, processChildren, getActionArgs,
      renderFunc, partFunc, c3Tree]

/-- C3 amended: on every error-free traversal the Reference List is
exactly the document-order list of literal name arguments of name-bearing
action nodes (`refNamesSpec`); literal template-invocation nodes
contribute nothing to it. -/
theorem c3_referenceListIsActionNames (hp : Bool) (t : Node) (rmode pmode : Bool)
    (h : (processNode hp t none rmode pmode).2.2 = none) :
    (processNode hp t none rmode pmode).2.1 = refNamesSpec t :=
  names_eq.1 t hp rmode pmode h

theorem c3_witness :
    (processNode true c3WitnessTree none true true).2.2 = none ∧
    (processNode true c3WitnessTree none true true).2.1 = refNamesSpec c3WitnessTree :=
  ⟨by simp +decide [processNode, processChildren, getActionArgs, renderFunc, partFunc,
      c3WitnessTree],
   c3_referenceListIsActionNames true c3WitnessTree true true
     (by simp +decide [processNode, processChildren, getActionArgs, renderFunc, partFunc,
        c3WitnessTree])⟩

/-- C4: a `partial` action (partial mode enabled) with an empty/absent
string name argument, sitting after an error-free prefix of the root
sequence, makes the pass fail with
`"<template-name>:<line>:<column>: partial: path to partial file is not
specified"`, where line/column are obtained from the action node's byte
offset by the spec-side scan of the raw source text (`lineColSpec`). -/
theorem c4_emptyPartialFails (tname raw : String) (rmode : Bool)
    (pre tl : List Node) (off ln : Nat) (args : List Node) (atl : List (List Node))
    (hpre : (processChildren pre none rmode true).2.2 = none)
    (hfn : (getActionArgs args).1 = partFunc)
    (hnm : (getActionArgs args).2.1 = "") :
    (processTree ⟨tname, Node.list (pre ++ Node.action off ln (args :: atl) :: tl)⟩
        raw rmode true).2.2 =
      some (tname ++ ":" ++ toString (lineColSpec raw off).1 ++ ":" ++
            toString (lineColSpec raw off).2 ++ ": " ++
            "partial: path to partial file is not specified") := by
  have hact : processActionNode true off ln (args :: atl) rmode true =
      Except.error (Err.posErr off "partial: path to partial file is not specified") := by
    unfold processActionNode
    simp [hfn, hnm]
  have hnode := pn_action_err (Or.inr hfn) hact
  have herr : (processNode false
      (Node.list (pre ++ Node.action off ln (args :: atl) :: tl)) none rmode true).2.2
      = some (Err.posErr off "partial: path to partial file is not specified") := by
    rw [pn_list]
    rw [processChildren_append, hpre, pc_cons_none, hnode]
    simp [processChildren_some]
  simp only [processTree]
  rw [herr]
  simp [pos_eq_lineColSpec]

theorem c4_witness :
    (processChildren [] none true true).2.2 = none ∧
    (getActionArgs [Node.identifier "partial"]).1 = partFunc ∧
    (getActionArgs [Node.identifier "partial"]).2.1 = "" ∧
    (processTree ⟨"index.html",
        Node.list ([] ++ Node.action 2 1 ([Node.identifier "partial"] :: []) :: [])⟩
        "\x7b\x7bpartial\x7d\x7d" true true).2.2 =
      some ("index.html" ++ ":" ++ toString (lineColSpec "\x7b\x7bpartial\x7d\x7d" 2).1 ++ ":" ++
            toString (lineColSpec "\x7b\x7bpartial\x7d\x7d" 2).2 ++ ": " ++
            "partial: path to partial file is not specified") :=
  ⟨by simp [processChildren], by simp +decide [getActionArgs, partFunc],
   by simp +decide [getActionArgs],
   c4_emptyPartialFails "index.html" "\x7b\x7bpartial\x7d\x7d" true [] [] 2 1
     [Node.identifier "partial"] []
     (by simp [processChildren]) (by simp +decide [getActionArgs, partFunc])
     (by simp +decide [getActionArgs])⟩

/-- C5: an action whose first command calls `render`, with render mode
enabled (and a parent sequence present), is replaced by a
template-invocation node bound to the full current context (a single
command with the single argument dot), named `"body"` when the string
name argument is empty/absent and named by that argument otherwise; any
field third argument never reaches the pipeline. -/
theorem c5_renderRewrite (ps ln : Nat) (args : List Node) (atl : List (List Node))
    (pmode : Bool)
    (hfn : (getActionArgs args).1 = renderFunc) :
    processNode true (Node.action ps ln (args :: atl)) none true pmode =
      (Node.template ps ln
         (if (getActionArgs args).2.1 = "" then "body" else (getActionArgs args).2.1)
         [[Node.dot]],
       if (getActionArgs args).2.1 = "" then [] else [(getActionArgs args).2.1],
       none) := by
  have hact : processActionNode true ps ln (args :: atl) true pmode =
      Except.ok (some (Node.template ps ln
        (if (getActionArgs args).2.1 = "" then "body" else (getActionArgs args).2.1)
        [[Node.dot]])) := by
    unfold processActionNode
    simp +decide [hfn, renderFunc, partFunc]
  rw [pn_action_rw (Or.inl hfn) hact]

theorem c5_witness :
    (getActionArgs [Node.identifier "render", Node.stringN "foot", Node.fieldN ["Foo"]]).1 =
      renderFunc ∧
    processNode true
        (Node.action 32 1
          [[Node.identifier "render", Node.stringN "foot", Node.fieldN ["Foo"]]])
        none true true =
      (Node.template 32 1
         (if (getActionArgs
            [Node.identifier "render", Node.stringN "foot", Node.fieldN ["Foo"]]).2.1 = ""
          then "body"
          else (getActionArgs
            [Node.identifier "render", Node.stringN "foot", Node.fieldN ["Foo"]]).2.1)
         [[Node.dot]],
       if (getActionArgs
            [Node.identifier "render", Node.stringN "foot", Node.fieldN ["Foo"]]).2.1 = ""
       then []
       else [(getActionArgs
            [Node.identifier "render", Node.stringN "foot", Node.fieldN ["Foo"]]).2.1],
       none) :=
  ⟨by simp +decide [getActionArgs, renderFunc],
   c5_renderRewrite 32 1 [Node.identifier "render", Node.stringN "foot", Node.fieldN ["Foo"]]
     [] true (by simp +decide [getActionArgs, renderFunc])⟩

/-- C6: an action whose first command calls `partial`, with partial mode
enabled, a parent sequence present and a non-empty string name argument,
is replaced by a template-invocation node with that name whose single
pipeline argument is the field third argument when present and dot
otherwise. -/
theorem c6_partialRewrite (ps ln : Nat) (args : List Node) (atl : List (List Node))
    (rmode : Bool)
    (hfn : (getActionArgs args).1 = partFunc)
    (hnm : (getActionArgs args).2.1 ≠ "") :
    processNode true (Node.action ps ln (args :: atl)) none rmode true =
      (Node.template ps ln (getActionArgs args).2.1
         [[((getActionArgs args).2.2).getD Node.dot]],
       [(getActionArgs args).2.1], none) := by
  have hact : processActionNode true ps ln (args :: atl) rmode true =
      Except.ok (some (Node.template ps ln (getActionArgs args).2.1
        [[((getActionArgs args).2.2).getD Node.dot]])) := by
    unfold processActionNode
    simp [hfn, hnm]
  rw [pn_action_rw (Or.inr hfn) hact]
  simp [hnm]

theorem c6_witness :
    (getActionArgs [Node.identifier "partial", Node.stringN "p.html", Node.fieldN ["Field"]]).1 =
      partFunc ∧
    (getActionArgs [Node.identifier "partial", Node.stringN "p.html", Node.fieldN ["Field"]]).2.1 ≠
      "" ∧
    processNode true
        (Node.action 2 1
          [[Node.identifier "partial", Node.stringN "p.html", Node.fieldN ["Field"]]])
        none true true =
      (Node.template 2 1
         (getActionArgs
            [Node.identifier "partial", Node.stringN "p.html", Node.fieldN ["Field"]]).2.1
         [[((getActionArgs
            [Node.identifier "partial", Node.stringN "p.html", Node.fieldN ["Field"]]).2.2).getD
            Node.dot]],
       [(getActionArgs
            [Node.identifier "partial", Node.stringN "p.html", Node.fieldN ["Field"]]).2.1],
       none) :=
  ⟨by simp +decide [getActionArgs, partFunc], by simp +decide [getActionArgs],
   c6_partialRewrite 2 1
     [Node.identifier "partial", Node.stringN "p.html", Node.fieldN ["Field"]] [] true
     (by simp +decide [getActionArgs, partFunc]) (by simp +decide [getActionArgs])⟩

/-- C7: error propagation.  (1) If the processing of a prefix of a child
sequence ends with an error, processing the whole sequence returns
exactly that error (the first in traversal order), the names collected up
to it, the prefix with its pre-error rewrites kept, and the remaining
children untouched.  (2) Once an error is set, a child sequence is not
visited at all: nothing is rewritten, no names are collected, the error
is carried through unchanged.  (3)–(5) In a with/if/range node, an error
in the "then" body is returned as the node's error, the "else" body is
left untouched and no names are propagated. -/
theorem c7_firstErrorShortCircuits :
    (∀ (a b : List Node) (rmode pmode : Bool) (a' : List Node) (ts : List String) (e : Err),
       processChildren a none rmode pmode = (a', ts, some e) →
       processChildren (a ++ b) none rmode pmode = (a' ++ b, ts, some e)) ∧
    (∀ (ns : List Node) (e : Err) (rmode pmode : Bool),
       processChildren ns (some e) rmode pmode = (ns, [], some e)) ∧
    (∀ (hp : Bool) (pipe : List (List Node)) (bns : List Node) (els : Option (List Node))
       (rmode pmode : Bool) (b' : List Node) (ts : List String) (e : Err),
       processChildren bns none rmode pmode = (b', ts, some e) →
       processNode hp (Node.withN pipe (some bns) els) none rmode pmode =
         (Node.withN pipe (some b') els, [], some e)) ∧
    (∀ (hp : Bool) (pipe : List (List Node)) (bns : List Node) (els : Option (List Node))
       (rmode pmode : Bool) (b' : List Node) (ts : List String) (e : Err),
       processChildren bns none rmode pmode = (b', ts, some e) →
       processNode hp (Node.ifN pipe (some bns) els) none rmode pmode =
         (Node.ifN pipe (some b') els, [], some e)) ∧
    (∀ (hp : Bool) (pipe : List (List Node)) (bns : List Node) (els : Option (List Node))
       (rmode pmode : Bool) (b' : List Node) (ts : List String) (e : Err),
       processChildren bns none rmode pmode = (b', ts, some e) →
       processNode hp (Node.rangeN pipe (some bns) els) none rmode pmode =
         (Node.rangeN pipe (some b') els, [], some e)) := by
  have hbr : ∀ (bns : List Node) (els : Option (List Node)) (rmode pmode : Bool)
      (b' : List Node) (ts : List String) (e : Err),
      processChildren bns none rmode pmode = (b', ts, some e) →
      branchResults (some bns) els rmode pmode = ((some b', els), [], some e) := by
    intro bns els rmode pmode b' ts e h
    unfold branchResults
    rw [pob_some, h, pob_carry]
    simp
  refine ⟨?_, processChildren_some, ?_, ?_, ?_⟩
  · intro a b rmode pmode a' ts e h
    rw [processChildren_append, h]
    simp [processChildren_some]
  · intro hp pipe bns els rmode pmode b' ts e h
    rw [pn_withN, hbr bns els rmode pmode b' ts e h]
  · intro hp pipe bns els rmode pmode b' ts e h
    rw [pn_ifN, hbr bns els rmode pmode b' ts e h]
  · intro hp pipe bns els rmode pmode b' ts e h
    rw [pn_rangeN, hbr bns els rmode pmode b' ts e h]

theorem c7_witness :
    processChildren [c7BadAction] none true true =
      ([c7BadAction], [],
       some (Err.posErr 2 "partial: path to partial file is not specified")) ∧
    processChildren ([c7BadAction] ++ [c7GoodAction]) none true true =
      ([c7BadAction] ++ [c7GoodAction], [],
       some (Err.posErr 2 "partial: path to partial file is not specified")) :=
  ⟨by simp +decide [processChildren, processNode, processActionNode, getActionArgs,
      renderFunc, partFunc, c7BadAction],
   c7_firstErrorShortCircuits.1 [c7BadAction] [c7GoodAction] true true [c7BadAction] []
     (Err.posErr 2 "partial: path to partial file is not specified")
     (by simp +decide [processChildren, processNode, processActionNode, getActionArgs,
        renderFunc, partFunc, c7BadAction])⟩

/-- C8: an action whose first command's function name is not a
recognized directive with its mode enabled — any other function name, or
`render` with render mode disabled, or `partial` with partial mode
disabled — is left unchanged with no error (parent present), while its
literal name argument is still collected; the two mode flags act
independently. -/
theorem c8_noRewriteWhenUnrecognizedOrDisabled (ps ln : Nat) (args : List Node)
    (atl : List (List Node)) (rmode pmode : Bool)
    (hr : (getActionArgs args).1 = renderFunc → rmode = false)
    (hp' : (getActionArgs args).1 = partFunc → pmode = false) :
    processNode true (Node.action ps ln (args :: atl)) none rmode pmode =
      (Node.action ps ln (args :: atl),
       if (getActionArgs args).2.1 = "" then [] else [(getActionArgs args).2.1],
       none) := by
  by_cases hfn : (getActionArgs args).1 = renderFunc ∨ (getActionArgs args).1 = partFunc
  · have hact : processActionNode true ps ln (args :: atl) rmode pmode = Except.ok none := by
      unfold processActionNode
      rcases hfn with h1 | h1
      · have hrm := hr h1
        subst hrm
        simp +decide [h1, renderFunc, partFunc]
      · have hpm := hp' h1
        subst hpm
        simp +decide [h1, renderFunc, partFunc]
    rw [pn_action_norw hfn hact]
  · rw [pn_action_nomatch hfn]

theorem c8_witness :
    ((getActionArgs [Node.identifier "render", Node.stringN "x.html"]).1 = renderFunc →
      false = false) ∧
    ((getActionArgs [Node.identifier "render", Node.stringN "x.html"]).1 = partFunc →
      true = false) ∧
    processNode true
        (Node.action 2 1 [[Node.identifier "render", Node.stringN "x.html"]]) none false true =
      (Node.action 2 1 [[Node.identifier "render", Node.stringN "x.html"]],
       if (getActionArgs [Node.identifier "render", Node.stringN "x.html"]).2.1 = "" then []
       else [(getActionArgs [Node.identifier "render", Node.stringN "x.html"]).2.1],
       none) :=
  ⟨fun _ => rfl, by simp +decide [getActionArgs, partFunc],
   c8_noRewriteWhenUnrecognizedOrDisabled 2 1
     [Node.identifier "render", Node.stringN "x.html"] [] false true
     (fun _ => rfl) (by simp +decide [getActionArgs, partFunc])⟩

/-- C9: frame property.  (1) On a tree with no `render`/`partial`
actions, the pass returns the tree unchanged node-for-node, the
document-order list of literal name arguments of the remaining
name-bearing actions, and no error.  (2) Whenever the action rewriter
returns an error on an action the traversal dispatched to it, the action
node (and hence its slot in the parent sequence) is left untouched and
the error is returned with no names. -/
theorem c9_frame :
    (∀ (t : Node) (hp rmode pmode : Bool), noRP t = true →
       processNode hp t none rmode pmode = (t, refNamesSpec t, none)) ∧
    (∀ (hp : Bool) (ps ln : Nat) (args : List Node) (atl : List (List Node))
       (rmode pmode : Bool) (e : Err),
       ((getActionArgs args).1 = renderFunc ∨ (getActionArgs args).1 = partFunc) →
       processActionNode hp ps ln (args :: atl) rmode pmode = Except.error e →
       processNode hp (Node.action ps ln (args :: atl)) none rmode pmode =
         (Node.action ps ln (args :: atl), [], some e)) :=
  ⟨noRP_id.1, fun _ _ _ _ _ _ _ e hfn hact => pn_action_err hfn hact⟩

theorem c9_witness :
    noRP c9Tree = true ∧
    processNode true c9Tree none true true = (c9Tree, refNamesSpec c9Tree, none) :=
  ⟨by simp +decide [noRP, noRPList, noRPOpt, getActionArgs, renderFunc, partFunc, c9Tree],
   c9_frame.1 c9Tree true true true
     (by simp +decide [noRP, noRPList, noRPOpt, getActionArgs, renderFunc, partFunc,
        c9Tree])⟩

/-- C10: every successful rewrite attaches a pipeline truncated to a
single command with a single data-context argument — that argument being
dot or the action's field third argument; all other piped commands and
arguments are discarded. -/
theorem c10_pipelineTruncated (hp : Bool) (ps ln : Nat) (cmds : List (List Node))
    (rmode pmode : Bool) (n' : Node)
    (h : processActionNode hp ps ln cmds rmode pmode = Except.ok (some n')) :
    ∃ nm arg, n' = Node.template ps ln nm [[arg]] ∧
      (arg = Node.dot ∨ (getActionArgs (cmds.headD [])).2.2 = some arg) := by
  unfold processActionNode at h
  by_cases hhp : hp = false
  · rw [if_pos hhp] at h
    simp at h
  · rw [if_neg hhp] at h
    by_cases h1 : (getActionArgs (cmds.headD [])).1 = partFunc ∧ pmode
    · rw [if_pos h1] at h
      by_cases h2 : (getActionArgs (cmds.headD [])).2.1 = ""
      · rw [if_pos h2] at h
        simp at h
      · rw [if_neg h2] at h
        simp only [Except.ok.injEq, Option.some.injEq] at h
        refine ⟨(getActionArgs (cmds.headD [])).2.1,
          ((getActionArgs (cmds.headD [])).2.2).getD Node.dot, h.symm, ?_⟩
        cases hf : (getActionArgs (cmds.headD [])).2.2 with
        | none => left; simp
        | some f => right; simp
    · rw [if_neg h1] at h
      by_cases h3 : (getActionArgs (cmds.headD [])).1 = renderFunc ∧ rmode
      · rw [if_pos h3] at h
        simp only [Except.ok.injEq, Option.some.injEq] at h
        exact ⟨if (getActionArgs (cmds.headD [])).2.1 = "" then "body"
                else (getActionArgs (cmds.headD [])).2.1,
               Node.dot, h.symm, Or.inl rfl⟩
      · rw [if_neg h3] at h
        simp at h

theorem c10_witness :
    processActionNode true 2 1
        [[Node.identifier "partial", Node.stringN "p.html", Node.fieldN ["Field"]],
         [Node.identifier "upper"]] true true =
      Except.ok (some (Node.template 2 1 "p.html" [[Node.fieldN ["Field"]]])) ∧
    (∃ nm arg,
      Node.template 2 1 "p.html" [[Node.fieldN ["Field"]]] = Node.template 2 1 nm [[arg]] ∧
      (arg = Node.dot ∨
        (getActionArgs
          ([[Node.identifier "partial", Node.stringN "p.html", Node.fieldN ["Field"]],
            [Node.identifier "upper"]].headD [])).2.2 = some arg)) :=
  ⟨by simp +decide [processActionNode, getActionArgs, renderFunc, partFunc],
   c10_pipelineTruncated true 2 1
     [[Node.identifier "partial", Node.stringN "p.html", Node.fieldN ["Field"]],
      [Node.identifier "upper"]] true true
     (Node.template 2 1 "p.html" [[Node.fieldN ["Field"]]])
     (by simp +decide [processActionNode, getActionArgs, renderFunc, partFunc])⟩

end Mold
